import Mathlib

/-!
# AQUAGUARD telemetry node: the sampling-and-reporting cycle

A shallow embedding of `firmware/src/main.cpp` (with `firmware/include/config.h`):
the interrupt-driven pulse counter, the sensor conversions of `loop()`, the
timestamp and JSON payload construction, and the HTTP send step.

Conventions of the embedding

* `uint32_t` / `unsigned long` values are natural numbers reduced modulo `2 ^ 32`.
* `float` and `double` values are finite binary floating-point numbers `m * 2 ^ e`
  (`FP`); every arithmetic operation of the source is the exact operation followed
  by round-to-nearest, ties-to-even, to 53 bits (`double`) or 24 bits (`float`),
  with gradual underflow.  Overflow to infinity is not represented: the values
  computed by `loop()` stay far below the overflow thresholds.
* The interrupt service routine and one iteration of `loop()` are the two kinds of
  events of a trace; the read-and-reset of the counter is one atomic step because
  the source brackets it with `noInterrupts()` / `interrupts()`.
* What the hardware and the libraries return (`millis()`, `analogRead`, the IMU
  event, `rtc.now()`, `WiFi.status()`, `http.POST`) is an input of the iteration.
  The text conversions follow the format string of the `snprintf` call; the
  constructor `String(x, 2)` is library code and is modelled from the
  specification (`String2`).
-/

namespace Aquaguard

/-! ## Binary floating point -/

/-- A finite binary floating-point value `m * 2 ^ e`. -/
structure FP where
  m : Int
  e : Int
deriving DecidableEq, Repr

/-- The rational number denoted by a floating-point value. -/
def FP.toRat (x : FP) : ℚ := (x.m : ℚ) * (2 : ℚ) ^ x.e

/-- The fraction `N / (D * 2 ^ e)` as a pair of naturals (numerator, denominator). -/
def scale (N D : Nat) (e : Int) : Nat × Nat :=
  if 0 ≤ e then (N, D * 2 ^ e.toNat) else (N * 2 ^ (-e).toNat, D)

/-- Binary logarithm with explicit fuel. -/
def log2Fuel : Nat → Nat → Nat
  | 0, _ => 0
  | f + 1, n => if n < 2 then 0 else log2Fuel f (n / 2) + 1

/-- Floor of the binary logarithm of a positive natural (0 at 0). -/
def log2 (n : Nat) : Nat := log2Fuel n n

/-- Floor of the binary logarithm of the positive fraction `a / d`. -/
def ilog2 (a d : Nat) : Int :=
  let k0 : Int := (log2 a : Int) - (log2 d : Int)
  if (scale a d k0).2 ≤ (scale a d k0).1 then k0 else k0 - 1

/-- The integer nearest to `N / D`, ties going to the even integer. -/
def rneDiv (N D : Nat) : Nat :=
  let q := N / D
  let r := N % D
  if 2 * r < D then q else if D < 2 * r then q + 1 else if q % 2 = 0 then q else q + 1

/-- Round the fraction `n / d` to the nearest value with a `prec`-bit significand
and exponent at least `emin` (round-to-nearest, ties-to-even). -/
def roundQ (prec : Nat) (emin : Int) (n : Int) (d : Nat) : FP :=
  if n = 0 then ⟨0, 0⟩ else
  let a := n.natAbs
  let e := max (ilog2 a d - ((prec : Int) - 1)) emin
  ⟨Int.sign n * (rneDiv (scale a d e).1 (scale a d e).2 : Int), e⟩

/-- The value of a floating-point number as an integer fraction. -/
def FP.toFrac (x : FP) : Int × Nat :=
  if 0 ≤ x.e then (x.m * 2 ^ x.e.toNat, 1) else (x.m, 2 ^ (-x.e).toNat)

/-- Round a dyadic value to the format with `prec` bits and least exponent `emin`. -/
def roundFP (prec : Nat) (emin : Int) (x : FP) : FP :=
  roundQ prec emin x.toFrac.1 x.toFrac.2

/-- Rounding to `double` (binary64). -/
def toDouble (x : FP) : FP := roundFP 53 (-1074) x

/-- Rounding to `float` (binary32): the conversion done by an assignment to a
`float` variable. -/
def toFloat (x : FP) : FP := roundFP 24 (-149) x

/-- A decimal literal `n / d` of type `double`. -/
def doubleLit (n : Int) (d : Nat) : FP := roundQ 53 (-1074) n d

/-- Division in `double`: the exact quotient, rounded.  The divisors of the source
are the nonzero literals `7.5` and `4095.0`. -/
def divDouble (x y : FP) : FP :=
  roundQ 53 (-1074) (x.toFrac.1 * y.toFrac.2 * Int.sign y.toFrac.1)
    (x.toFrac.2 * y.toFrac.1.natAbs)

/-- Multiplication in `double`: the exact product, rounded. -/
def mulDouble (x y : FP) : FP := toDouble ⟨x.m * y.m, x.e + y.e⟩

/-- Subtraction in `double`: the exact difference, rounded. -/
def subDouble (x y : FP) : FP :=
  toDouble ⟨x.m * 2 ^ (x.e - min x.e y.e).toNat - y.m * 2 ^ (y.e - min x.e y.e).toNat,
    min x.e y.e⟩

/-- An integer converted to `double` (exact for the 32-bit integers of the source). -/
def ofInt (n : Int) : FP := ⟨n, 0⟩

/-! ## Program state and the pulse counter -/

/-- The global variables of `main.cpp`. -/
structure State where
  pulseCount : Nat
  flowRate : FP
  flowLastMeasure : Nat
deriving DecidableEq, Repr

/-- The globals as initialised at their declarations. -/
def State.init : State := ⟨0, ⟨0, 0⟩, 0⟩

/-- The interrupt service routine: `pulseCount++` on a `uint32_t`. -/
def onPulse (s : State) : State :=
  { s with pulseCount := (s.pulseCount + 1) % 2 ^ 32 }

/-- The critical section of `loop()`: `pulses = pulseCount; pulseCount = 0;`
executed with interrupts masked.  Returns the value read and the new state. -/
def drain (s : State) : Nat × State :=
  (s.pulseCount, { s with pulseCount := 0 })

/-! ## Sensor conversions -/

/-- The right-hand side `flowRate = (pulses / 7.5)`: a `double` division stored
in the `float` variable `flowRate`. -/
def flowRate (pulses : Nat) : FP :=
  toFloat (divDouble (ofInt pulses) ⟨15, -1⟩)

/-- The declaration `float voltage = rawPressure * (3.3 / 4095.0)`. -/
def voltage (rawPressure : Int) : FP :=
  toFloat (mulDouble (ofInt rawPressure) (divDouble (doubleLit 33 10) ⟨4095, 0⟩))

/-- The declaration `float pressure = (voltage - 0.5) * 100.0`, as a function of
the raw ADC sample. -/
def pressure (rawPressure : Int) : FP :=
  toFloat (mulDouble (subDouble (voltage rawPressure) ⟨1, -1⟩) ⟨100, 0⟩)

/-! ## Text formatting -/

/-- The character of a decimal digit. -/
def digitChar (d : Nat) : Char := Char.ofNat (48 + d)

/-- Decimal digits of a natural, most significant first, with explicit fuel. -/
def decDigitsFuel : Nat → Nat → List Char
  | 0, _ => []
  | f + 1, n =>
    if n < 10 then [digitChar n] else decDigitsFuel f (n / 10) ++ [digitChar (n % 10)]

/-- The conversion `%u`: the decimal digits of an unsigned number. -/
def decDigits (n : Nat) : List Char := decDigitsFuel (n + 1) n

/-- The conversion `%0<width>u`: decimal digits, left-padded with zeros up to
`width` characters (never truncated). -/
def padDec (width n : Nat) : List Char :=
  List.replicate (width - (decDigits n).length) '0' ++ decDigits n

/-- The value returned by `rtc.now()`, read through its accessors. -/
structure DateTime where
  year : Nat
  month : Nat
  day : Nat
  hour : Nat
  minute : Nat
  second : Nat
deriving DecidableEq, Repr

/-- The call `snprintf(timestamp, sizeof(timestamp),
"%04u-%02u-%02uT%02u:%02u:%02uZ", ...)` on a 32-byte buffer: at most 31
characters are stored. -/
def timestamp (now : DateTime) : String :=
  String.mk ((padDec 4 now.year ++ '-' :: padDec 2 now.month ++ '-' :: padDec 2 now.day
    ++ 'T' :: padDec 2 now.hour ++ ':' :: padDec 2 now.minute ++ ':' :: padDec 2 now.second
    ++ ['Z']).take 31)

/-- Modelled from the spec: the rounding step of the two-decimal rendering, which
is library code (see `String2`).  The magnitude of a value in hundredths, rounded
half away from zero: `⌊|x| * 100 + 1/2⌋`. -/
def hundredths (x : FP) : Nat :=
  if 0 ≤ x.e then x.m.natAbs * 2 ^ x.e.toNat * 100
  else (200 * x.m.natAbs + 2 ^ (-x.e).toNat) / (2 * 2 ^ (-x.e).toNat)

/-- Modelled from the spec: the Arduino `String(float, 2)` constructor is library
code that is not among the sources.  Following the specification (section 4.3,
"fixed-point with exactly two fractional digits, not scientific notation, not
variable precision") the value is rendered as an optional minus sign, the decimal
integer part, a point and two fractional digits; the rounding rule chosen is
round-half-away-from-zero on the hundredths. -/
def String2 (x : FP) : String :=
  String.mk ((if x.m < 0 then ['-'] else []) ++ decDigits (hundredths x / 100)
    ++ ['.', digitChar (hundredths x / 10 % 10), digitChar (hundredths x % 10)])

/-- The JSON construction of `loop()`: the `payload += ...` statements in order. -/
def payload (timestamp : String) (flowRate pressure vibration : FP) : String :=
  let payload := "\x7b"
  let payload := payload ++ ("\"timestamp\":\"" ++ timestamp ++ "\",")
  let payload := payload ++ ("\"flujo\":" ++ String2 flowRate ++ ",")
  let payload := payload ++ ("\"presion\":" ++ String2 pressure ++ ",")
  let payload := payload ++ ("\"vibracion\":" ++ String2 vibration)
  payload ++ "\x7d"

/-! ## The send step -/

/-- The constant `SERVER_URL` of `config.h`. -/
def SERVER_URL : String := "http://tu-backend.com/api/sensor/data"

/-- A call on the `HTTPClient` object. -/
inductive HttpCall where
  | begin (url : String)
  | addHeader (name value : String)
  | POST (payload : String)
  | finish
deriving DecidableEq, Repr

/-- A line written to the serial console by the send step. -/
inductive SerialLine where
  | http (code : Int) (payload : String)
  | postError (code : Int)
deriving DecidableEq, Repr

/-- The observable effects of one send step. -/
structure Sent where
  calls : List HttpCall
  serial : List SerialLine
deriving DecidableEq, Repr

/-- The block `if (WiFi.status() == WL_CONNECTED) ...` of `loop()`.  `connected` is
the outcome of the status test and `code` the value returned by `http.POST`. -/
def send (connected : Bool) (payload : String) (code : Int) : Sent :=
  if connected then
    { calls := [HttpCall.begin SERVER_URL,
                HttpCall.addHeader "Content-Type" "application/json",
                HttpCall.POST payload,
                HttpCall.finish],
      serial := if code > 0 then [SerialLine.http code payload]
                else [SerialLine.postError code] }
  else
    { calls := [], serial := [] }

/-- The transmission outcome of the specification (section 3). -/
inductive Outcome where
  | Success (code : Int)
  | TransportFailure (code : Int)
  | LinkUnavailable
deriving DecidableEq, Repr

/-- The outcome in the words of the specification, read off what a send step
logs: nothing logged is `LinkUnavailable`, a logged status line is `Success`, a
logged POST error is `TransportFailure`. -/
def outcome (r : Sent) : Outcome :=
  match r.serial with
  | [] => Outcome.LinkUnavailable
  | SerialLine.http code _ :: _ => Outcome.Success code
  | SerialLine.postError code :: _ => Outcome.TransportFailure code

/-! ## One iteration of `loop()` and traces -/

/-- What one iteration of `loop()` reads from its environment. -/
structure Inputs where
  /-- The value of `millis()` in the test `millis() - flowLastMeasure >= 1000`. -/
  millisCheck : Nat
  /-- The value of `millis()` stored by `flowLastMeasure = millis()`. -/
  millisClose : Nat
  /-- The value of `analogRead(PRESSURE_SENSOR_PIN)`. -/
  rawPressure : Int
  /-- The value of `a.acceleration.x` after `mpu.getEvent`. -/
  accelX : FP
  /-- The value of `rtc.now()`. -/
  now : DateTime
  /-- The outcome of `WiFi.status() == WL_CONNECTED`. -/
  connected : Bool
  /-- The value returned by `http.POST(payload)`, when it is called. -/
  code : Int

/-- The test `millis() - flowLastMeasure >= 1000` in `unsigned long` arithmetic. -/
def windowElapsed (millis flowLastMeasure : Nat) : Bool :=
  decide (1000 ≤ (millis + 2 ^ 32 - flowLastMeasure % 2 ^ 32) % 2 ^ 32)

/-- The flow block of `loop()`: when the window has elapsed, drain the counter,
recompute `flowRate` and restart the window. -/
def flowStep (s : State) (i : Inputs) : State :=
  if windowElapsed i.millisCheck s.flowLastMeasure then
    let pulses := (drain s).1
    { (drain s).2 with flowRate := flowRate pulses, flowLastMeasure := i.millisClose }
  else s

/-- What one iteration of `loop()` produces. -/
structure Report where
  payload : String
  sent : Sent
deriving DecidableEq, Repr

/-- One iteration of `loop()`: the flow block, the pressure and vibration reads,
the timestamp, the payload and the send step.  The closing `delay(5000)` only lets
time pass; time enters the model through the `millis()` readings of the next
iteration and the times of the edges. -/
def loop (s : State) (i : Inputs) : State × Report :=
  let s := flowStep s i
  let pressure := pressure i.rawPressure
  let vibration := i.accelX
  let payload := payload (timestamp i.now) s.flowRate pressure vibration
  (s, { payload := payload, sent := send i.connected payload i.code })

/-- An event of an execution: a falling edge at some time (served by `onPulse`) or
one iteration of `loop()`. -/
inductive Event where
  | edge (t : Nat)
  | iteration (i : Inputs)

/-- Run a trace of events, collecting the reports of the iterations. -/
def run (s : State) : List Event → State × List Report
  | [] => (s, [])
  | Event.edge _ :: es => run (onPulse s) es
  | Event.iteration i :: es =>
    ((run (loop s i).1 es).1, (loop s i).2 :: (run (loop s i).1 es).2)

/-- The effect of `setup()` on the globals: `flowLastMeasure = millis()`. -/
def setup (millis : Nat) : State := { State.init with flowLastMeasure := millis }

/-- The number of edge events of a trace with a time in `[lo, hi)`: the pulses of
the window in the words of the specification. -/
def edgesIn (lo hi : Nat) : List Event → Nat
  | [] => 0
  | Event.edge t :: es => (if lo ≤ t ∧ t < hi then 1 else 0) + edgesIn lo hi es
  | Event.iteration _ :: es => edgesIn lo hi es

/-- The inputs of an iteration that reads `millis` from the clock, the raw sample
`raw` from the ADC, no acceleration, the given date-time, and finds the link down. -/
def quietInputs (millis : Nat) (raw : Int) (now : DateTime) : Inputs :=
  ⟨millis, millis, raw, ⟨0, 0⟩, now, false, 0⟩

/-- The inputs of the end-to-end scenario: an iteration of `loop()` at 6000 ms that
reads the raw sample 1820, the acceleration `9.81f` and the date-time
2024-01-01 00:00:00, finds the link up and gets the status 200 from the POST. -/
def scenarioInputs : Inputs :=
  ⟨6000, 6000, 1820, toFloat (doubleLit 981 100), ⟨2024, 1, 1, 0, 0, 0⟩, true, 200⟩

/-- A trace with a burst early in the report interval.  `setup()` ends at 1000 ms;
the first iteration follows at once and the next ones after the 5000 ms delay, at
6000 ms and 11000 ms.  Ten falling edges arrive between 6500 ms and 7400 ms, none
afterwards. -/
def burstTrace : List Event :=
  [Event.iteration (quietInputs 1000 620 ⟨2024, 1, 1, 0, 0, 1⟩),
   Event.iteration (quietInputs 6000 620 ⟨2024, 1, 1, 0, 0, 6⟩),
   Event.edge 6500, Event.edge 6600, Event.edge 6700, Event.edge 6800, Event.edge 6900,
   Event.edge 7000, Event.edge 7100, Event.edge 7200, Event.edge 7300, Event.edge 7400,
   Event.iteration (quietInputs 11000 620 ⟨2024, 1, 1, 0, 0, 11⟩)]

/-! ## Rounding: error bounds -/

theorem log2Fuel_spec (f n : Nat) (hf : n ≤ f) (hn : n ≠ 0) :
    2 ^ log2Fuel f n ≤ n ∧ n < 2 ^ (log2Fuel f n + 1) := by
  induction f generalizing n with
  | zero => omega
  | succ f ih =>
    rw [log2Fuel]
    split
    · simp
      omega
    · obtain ⟨h1, h2⟩ := ih (n / 2) (by omega) (by omega)
      rw [pow_succ] at h2 ⊢
      constructor
      · omega
      · rw [pow_succ]
        omega

theorem log2_le (n : Nat) (hn : n ≠ 0) : 2 ^ log2 n ≤ n :=
  (log2Fuel_spec n n le_rfl hn).1

theorem lt_log2 (n : Nat) (hn : n ≠ 0) : n < 2 ^ (log2 n + 1) :=
  (log2Fuel_spec n n le_rfl hn).2

theorem scale_pos (N D : Nat) (e : Int) (hD : 0 < D) : 0 < (scale N D e).2 := by
  unfold scale
  split
  · exact Nat.mul_pos hD (pow_pos (by norm_num) _)
  · exact hD

theorem scale_val (N D : Nat) (e : Int) (hD : 0 < D) :
    ((scale N D e).1 : ℚ) / ((scale N D e).2 : ℚ) = (N : ℚ) / D / 2 ^ e := by
  have hD' : (D : ℚ) ≠ 0 := by exact_mod_cast hD.ne'
  unfold scale
  split
  · rename_i h
    have he : e = ((e.toNat : Nat) : Int) := (Int.toNat_of_nonneg h).symm
    rw [he]
    simp only [Int.toNat_ofNat, zpow_natCast]
    push_cast
    rw [div_div]
  · rename_i h
    have he : e = -(((-e).toNat : Nat) : Int) := by
      rw [Int.toNat_of_nonneg (by omega)]
      omega
    rw [he]
    simp only [neg_neg, Int.toNat_ofNat, zpow_neg, zpow_natCast]
    push_cast
    field_simp

/-- The rounded quotient is within one half of the exact quotient. -/
theorem rneDiv_err (N D : Nat) (hD : 0 < D) :
    |((rneDiv N D : Nat) : ℚ) - (N : ℚ) / D| ≤ 1 / 2 := by
  have hD' : (0 : ℚ) < D := by exact_mod_cast hD
  have hN : (N : ℚ) = (D : ℚ) * ((N / D : Nat) : ℚ) + ((N % D : Nat) : ℚ) := by
    exact_mod_cast (Nat.div_add_mod N D).symm
  have hr : ((N % D : Nat) : ℚ) < D := by exact_mod_cast Nat.mod_lt N hD
  have hr0 : (0 : ℚ) ≤ ((N % D : Nat) : ℚ) := by positivity
  have hx : (N : ℚ) / D = ((N / D : Nat) : ℚ) + ((N % D : Nat) : ℚ) / D := by
    field_simp
    linarith
  have hrd : ((N % D : Nat) : ℚ) / D < 1 := by
    rw [div_lt_one hD']
    exact hr
  have hrd0 : (0 : ℚ) ≤ ((N % D : Nat) : ℚ) / D := by positivity
  rw [hx, abs_le]
  unfold rneDiv
  simp only
  split
  · rename_i h
    have h' : (2 : ℚ) * ((N % D : Nat) : ℚ) < D := by exact_mod_cast h
    have : ((N % D : Nat) : ℚ) / D ≤ 1 / 2 := by
      rw [div_le_iff₀ hD']
      linarith
    constructor <;> linarith
  · rename_i h
    have h' : (D : ℚ) ≤ 2 * ((N % D : Nat) : ℚ) := by exact_mod_cast Nat.le_of_not_lt h
    have h1 : 1 / 2 ≤ ((N % D : Nat) : ℚ) / D := by
      rw [le_div_iff₀ hD']
      linarith
    split
    · push_cast
      constructor <;> linarith
    · rename_i h2
      have h2' : 2 * ((N % D : Nat) : ℚ) ≤ D := by exact_mod_cast Nat.le_of_not_lt h2
      have h3 : ((N % D : Nat) : ℚ) / D ≤ 1 / 2 := by
        rw [div_le_iff₀ hD']
        linarith
      split
      · constructor <;> linarith
      · push_cast
        constructor <;> linarith

/-- The computed binary exponent of `a / d` is a lower bound: `2 ^ k ≤ a / d`. -/
theorem ilog2_le (a d : Nat) (ha : 0 < a) (hd : 0 < d) :
    (2 : ℚ) ^ ilog2 a d ≤ (a : ℚ) / d := by
  have hd' : (0 : ℚ) < d := by exact_mod_cast hd
  unfold ilog2
  simp only
  split
  · rename_i h
    have hS := scale_val a d ((log2 a : Int) - (log2 d : Int)) hd
    have hp := scale_pos a d ((log2 a : Int) - (log2 d : Int)) hd
    have hp' : (0 : ℚ) < ((scale a d ((log2 a : Int) - (log2 d : Int))).2 : ℚ) := by
      exact_mod_cast hp
    have h1 : (1 : ℚ) ≤ ((scale a d ((log2 a : Int) - (log2 d : Int))).1 : ℚ) /
        ((scale a d ((log2 a : Int) - (log2 d : Int))).2 : ℚ) := by
      rw [le_div_iff₀ hp', one_mul]
      exact_mod_cast h
    rw [hS, le_div_iff₀ (by positivity), one_mul] at h1
    exact h1
  · have h1 : ((2 : ℚ) ^ (log2 a)) ≤ a := by exact_mod_cast log2_le a ha.ne'
    have h2 : (d : ℚ) ≤ (2 : ℚ) ^ (log2 d + 1) := by exact_mod_cast (lt_log2 d hd.ne').le
    have e : (2 : ℚ) ^ ((log2 a : Int) - (log2 d : Int) - 1) =
        (2 : ℚ) ^ (log2 a) / (2 : ℚ) ^ (log2 d + 1) := by
      rw [sub_sub, zpow_sub₀ (by norm_num), zpow_natCast]
      congr 1
      exact_mod_cast zpow_natCast (2 : ℚ) (log2 d + 1)
    rw [e, div_le_div_iff₀ (by positivity) hd']
    calc (2 : ℚ) ^ (log2 a) * d ≤ a * d := by gcongr
      _ ≤ a * (2 : ℚ) ^ (log2 d + 1) := by gcongr

/-- Rounding error: at most half a unit in the last place, that is a relative error
of `2 ^ (-prec)` for normal values and `2 ^ (emin - 1)` in the subnormal range. -/
theorem roundQ_err (prec : Nat) (emin : Int) (n : Int) (d : Nat) (hd : 0 < d) :
    |(roundQ prec emin n d).toRat - (n : ℚ) / d| ≤
      |(n : ℚ) / d| / 2 ^ prec + (2 : ℚ) ^ (emin - 1) := by
  have hd' : (0 : ℚ) < d := by exact_mod_cast hd
  by_cases hn : n = 0
  · subst hn
    simp only [roundQ, FP.toRat]
    simp
    positivity
  · have ha : 0 < n.natAbs := Int.natAbs_pos.mpr hn
    have ha' : (0 : ℚ) < (n.natAbs : ℚ) := by exact_mod_cast ha
    have hx : (0 : ℚ) < (n.natAbs : ℚ) / d := by positivity
    have hsign : (n : ℚ) = (Int.sign n : ℚ) * (n.natAbs : ℚ) := by
      have h0 : ((Int.sign n * (n.natAbs : Int) : Int) : ℚ) = (n : ℚ) := by
        rw [Int.sign_mul_natAbs]
      rw [← h0, Int.cast_mul, Int.cast_natCast]
    have hs1 : |(Int.sign n : ℚ)| = 1 := by
      rcases lt_or_gt_of_ne hn with h | h
      · rw [Int.sign_eq_neg_one_of_neg h]
        norm_num
      · rw [Int.sign_eq_one_of_pos h]
        norm_num
    have habs : |(n : ℚ) / d| = (n.natAbs : ℚ) / d := by
      rw [hsign, mul_div_assoc, abs_mul, hs1, one_mul, abs_of_pos hx]
    rw [habs]
    unfold roundQ
    rw [if_neg hn]
    simp only [FP.toRat]
    generalize he : max (ilog2 n.natAbs d - ((prec : Int) - 1)) emin = e
    have h2e : (0 : ℚ) < (2 : ℚ) ^ e := by positivity
    have hm := rneDiv_err (scale n.natAbs d e).1 (scale n.natAbs d e).2 (scale_pos _ _ _ hd)
    rw [scale_val _ _ _ hd] at hm
    generalize rneDiv (scale n.natAbs d e).1 (scale n.natAbs d e).2 = m at hm
    have hkey : |(m : ℚ) * 2 ^ e - (n.natAbs : ℚ) / d| ≤ 2 ^ e / 2 := by
      have : (m : ℚ) * 2 ^ e - (n.natAbs : ℚ) / d =
          ((m : ℚ) - (n.natAbs : ℚ) / d / 2 ^ e) * 2 ^ e := by
        field_simp
        ring
      rw [this, abs_mul, abs_of_pos h2e]
      calc |(m : ℚ) - (n.natAbs : ℚ) / d / 2 ^ e| * 2 ^ e ≤ 1 / 2 * 2 ^ e := by gcongr
        _ = 2 ^ e / 2 := by ring
    have hlhs : ((Int.sign n * (m : Int) : Int) : ℚ) * 2 ^ e - (n : ℚ) / d =
        (Int.sign n : ℚ) * ((m : ℚ) * 2 ^ e - (n.natAbs : ℚ) / d) := by
      rw [Int.cast_mul, Int.cast_natCast, hsign]
      ring
    rw [hlhs, abs_mul, hs1, one_mul]
    refine hkey.trans ?_
    have hk := ilog2_le n.natAbs d ha hd
    rcases le_total (ilog2 n.natAbs d - ((prec : Int) - 1)) emin with h | h
    · rw [max_eq_right h] at he
      subst he
      have : (2 : ℚ) ^ emin / 2 = (2 : ℚ) ^ (emin - 1) := by
        rw [zpow_sub₀ (by norm_num), zpow_one]
      rw [this]
      have : (0 : ℚ) ≤ (n.natAbs : ℚ) / d / 2 ^ prec := by positivity
      linarith
    · rw [max_eq_left h] at he
      subst he
      have : (2 : ℚ) ^ (ilog2 n.natAbs d - ((prec : Int) - 1)) / 2 =
          (2 : ℚ) ^ (ilog2 n.natAbs d) / 2 ^ prec := by
        rw [zpow_sub₀ (by norm_num), zpow_sub₀ (by norm_num), zpow_one, zpow_natCast]
        field_simp
        ring
      rw [this]
      have h1 : (2 : ℚ) ^ (ilog2 n.natAbs d) / 2 ^ prec ≤ (n.natAbs : ℚ) / d / 2 ^ prec := by
        gcongr
      have : (0 : ℚ) < (2 : ℚ) ^ (emin - 1) := by positivity
      linarith

/-- The computed binary exponent of `a / d` is tight: `a / d < 2 ^ (k + 1)`. -/
theorem ilog2_lt (a d : Nat) (ha : 0 < a) (hd : 0 < d) :
    (a : ℚ) / d < (2 : ℚ) ^ (ilog2 a d + 1) := by
  have hd' : (0 : ℚ) < d := by exact_mod_cast hd
  unfold ilog2
  simp only
  split
  · have h1 : (a : ℚ) < (2 : ℚ) ^ (log2 a + 1) := by exact_mod_cast lt_log2 a ha.ne'
    have h2 : (2 : ℚ) ^ (log2 d) ≤ d := by exact_mod_cast log2_le d hd.ne'
    have e : (2 : ℚ) ^ ((log2 a : Int) - (log2 d : Int) + 1) =
        (2 : ℚ) ^ (log2 a + 1) / (2 : ℚ) ^ (log2 d) := by
      rw [show ((log2 a : Int) - (log2 d : Int) + 1) = ((log2 a + 1 : Nat) : Int) - (log2 d : Int) by
        push_cast; ring]
      rw [zpow_sub₀ (by norm_num), zpow_natCast, zpow_natCast]
    rw [e, div_lt_div_iff₀ hd' (by positivity)]
    calc (a : ℚ) * 2 ^ log2 d ≤ a * d := by gcongr
      _ < 2 ^ (log2 a + 1) * d := by gcongr
  · rename_i h
    have hS := scale_val a d ((log2 a : Int) - (log2 d : Int)) hd
    have hp := scale_pos a d ((log2 a : Int) - (log2 d : Int)) hd
    have hp' : (0 : ℚ) < ((scale a d ((log2 a : Int) - (log2 d : Int))).2 : ℚ) := by
      exact_mod_cast hp
    have h1 : ((scale a d ((log2 a : Int) - (log2 d : Int))).1 : ℚ) /
        ((scale a d ((log2 a : Int) - (log2 d : Int))).2 : ℚ) < 1 := by
      rw [div_lt_one hp']
      exact_mod_cast Nat.lt_of_not_le h
    rw [hS, div_lt_one (by positivity)] at h1
    rw [sub_add_cancel]
    exact h1

/-- The significand of a rounded value has at most `prec` bits (or is the power
`2 ^ prec` itself, which is the next binade's least significand). -/
theorem roundQ_significand (prec : Nat) (emin : Int) (n : Int) (d : Nat) (hd : 0 < d) :
    |(roundQ prec emin n d).m| ≤ 2 ^ prec := by
  by_cases hn : n = 0
  · subst hn
    simp [roundQ]
  · have ha : 0 < n.natAbs := Int.natAbs_pos.mpr hn
    have hx : (0 : ℚ) < (n.natAbs : ℚ) / d := by
      have : (0 : ℚ) < (n.natAbs : ℚ) := by exact_mod_cast ha
      have : (0 : ℚ) < (d : ℚ) := by exact_mod_cast hd
      positivity
    unfold roundQ
    rw [if_neg hn]
    simp only
    have hlt := ilog2_lt n.natAbs d ha hd
    have hle : ilog2 n.natAbs d - ((prec : Int) - 1) ≤
        max (ilog2 n.natAbs d - ((prec : Int) - 1)) emin := le_max_left _ _
    generalize max (ilog2 n.natAbs d - ((prec : Int) - 1)) emin = e at hle
    have hm := rneDiv_err (scale n.natAbs d e).1 (scale n.natAbs d e).2 (scale_pos _ _ _ hd)
    rw [scale_val _ _ _ hd] at hm
    generalize rneDiv (scale n.natAbs d e).1 (scale n.natAbs d e).2 = m at hm
    have h2e : (0 : ℚ) < (2 : ℚ) ^ e := by positivity
    have hq : (n.natAbs : ℚ) / d / 2 ^ e < 2 ^ prec := by
      rw [div_lt_iff₀ h2e]
      calc (n.natAbs : ℚ) / d < (2 : ℚ) ^ (ilog2 n.natAbs d + 1) := hlt
        _ ≤ (2 : ℚ) ^ ((prec : Int) + e) := zpow_le_zpow_right₀ (by norm_num) (by omega)
        _ = 2 ^ prec * 2 ^ e := by rw [zpow_add₀ (by norm_num), zpow_natCast]
    have hmq : (m : ℚ) < 2 ^ prec + 1 := by
      have := (abs_le.mp hm).2
      linarith
    have hmn : m < 2 ^ prec + 1 := by exact_mod_cast hmq
    rw [abs_mul, Int.abs_natCast]
    have hs : |Int.sign n| = 1 := by
      rcases lt_or_gt_of_ne hn with h | h
      · rw [Int.sign_eq_neg_one_of_neg h]
        rfl
      · rw [Int.sign_eq_one_of_pos h]
        rfl
    rw [hs, one_mul]
    have : (m : Int) < 2 ^ prec + 1 := by exact_mod_cast hmn
    omega

theorem toFrac_pos (x : FP) : 0 < x.toFrac.2 := by
  unfold FP.toFrac
  split
  · exact Nat.one_pos
  · exact pow_pos (by norm_num) _

theorem toFrac_val (x : FP) : (x.toFrac.1 : ℚ) / (x.toFrac.2 : ℚ) = x.toRat := by
  unfold FP.toFrac FP.toRat
  split
  · rename_i h
    have he : x.e = ((x.e.toNat : Nat) : Int) := (Int.toNat_of_nonneg h).symm
    rw [he]
    simp only [Int.toNat_ofNat, zpow_natCast]
    push_cast
    rw [div_one]
  · rename_i h
    have he : x.e = -(((-x.e).toNat : Nat) : Int) := by
      rw [Int.toNat_of_nonneg (by omega)]
      omega
    rw [he]
    simp only [neg_neg, Int.toNat_ofNat, zpow_neg, zpow_natCast]
    push_cast
    rw [div_eq_mul_inv]

theorem roundFP_err (prec : Nat) (emin : Int) (x : FP) :
    |(roundFP prec emin x).toRat - x.toRat| ≤ |x.toRat| / 2 ^ prec + (2 : ℚ) ^ (emin - 1) := by
  have h := roundQ_err prec emin x.toFrac.1 x.toFrac.2 (toFrac_pos x)
  rw [toFrac_val] at h
  exact h

theorem toDouble_err (x : FP) :
    |(toDouble x).toRat - x.toRat| ≤ |x.toRat| / 2 ^ 53 + 1 / 2 ^ 1075 := by
  have h := roundFP_err 53 (-1074) x
  have e : (2 : ℚ) ^ ((-1074 : Int) - 1) = 1 / 2 ^ 1075 := by
    rw [show ((-1074 : Int) - 1) = -((1075 : Nat) : Int) by norm_num, zpow_neg, zpow_natCast,
      one_div]
  rw [e] at h
  exact h

theorem toFloat_err (x : FP) :
    |(toFloat x).toRat - x.toRat| ≤ |x.toRat| / 2 ^ 24 + 1 / 2 ^ 150 := by
  have h := roundFP_err 24 (-149) x
  have e : (2 : ℚ) ^ ((-149 : Int) - 1) = 1 / 2 ^ 150 := by
    rw [show ((-149 : Int) - 1) = -((150 : Nat) : Int) by norm_num, zpow_neg, zpow_natCast,
      one_div]
  rw [e] at h
  exact h

theorem mulDouble_err (x y : FP) :
    |(mulDouble x y).toRat - x.toRat * y.toRat| ≤
      |x.toRat * y.toRat| / 2 ^ 53 + 1 / 2 ^ 1075 := by
  have h := toDouble_err ⟨x.m * y.m, x.e + y.e⟩
  have e : (FP.mk (x.m * y.m) (x.e + y.e)).toRat = x.toRat * y.toRat := by
    simp only [FP.toRat]
    rw [zpow_add₀ (by norm_num)]
    push_cast
    ring
  rw [e] at h
  exact h

theorem subDouble_err (x y : FP) :
    |(subDouble x y).toRat - (x.toRat - y.toRat)| ≤
      |x.toRat - y.toRat| / 2 ^ 53 + 1 / 2 ^ 1075 := by
  have h := toDouble_err
    ⟨x.m * 2 ^ (x.e - min x.e y.e).toNat - y.m * 2 ^ (y.e - min x.e y.e).toNat, min x.e y.e⟩
  have e : (FP.mk (x.m * 2 ^ (x.e - min x.e y.e).toNat - y.m * 2 ^ (y.e - min x.e y.e).toNat)
      (min x.e y.e)).toRat = x.toRat - y.toRat := by
    simp only [FP.toRat]
    have hx : x.e = ((x.e - min x.e y.e).toNat : Int) + min x.e y.e := by
      rw [Int.toNat_of_nonneg (by omega)]
      ring
    have hy : y.e = ((y.e - min x.e y.e).toNat : Int) + min x.e y.e := by
      rw [Int.toNat_of_nonneg (by omega)]
      ring
    generalize min x.e y.e = e at hx hy
    generalize (x.e - e).toNat = a at hx
    generalize (y.e - e).toNat = b at hy
    rw [hx, hy, zpow_add₀ (by norm_num), zpow_add₀ (by norm_num), zpow_natCast, zpow_natCast]
    push_cast
    ring
  rw [e] at h
  exact h

theorem divDouble_err (x y : FP) (hy : y.m ≠ 0) :
    |(divDouble x y).toRat - x.toRat / y.toRat| ≤
      |x.toRat / y.toRat| / 2 ^ 53 + 1 / 2 ^ 1075 := by
  have hy1 : y.toFrac.1 ≠ 0 := by
    unfold FP.toFrac
    split
    · exact mul_ne_zero hy (pow_ne_zero _ (by norm_num))
    · exact hy
  have hpos : 0 < x.toFrac.2 * y.toFrac.1.natAbs :=
    Nat.mul_pos (toFrac_pos x) (Int.natAbs_pos.mpr hy1)
  have h := roundQ_err 53 (-1074) (x.toFrac.1 * y.toFrac.2 * Int.sign y.toFrac.1)
    (x.toFrac.2 * y.toFrac.1.natAbs) hpos
  have e : (2 : ℚ) ^ ((-1074 : Int) - 1) = 1 / 2 ^ 1075 := by
    rw [show ((-1074 : Int) - 1) = -((1075 : Nat) : Int) by norm_num, zpow_neg, zpow_natCast,
      one_div]
  have hq : ((x.toFrac.1 * y.toFrac.2 * Int.sign y.toFrac.1 : Int) : ℚ) /
      ((x.toFrac.2 * y.toFrac.1.natAbs : Nat) : ℚ) = x.toRat / y.toRat := by
    rw [← toFrac_val x, ← toFrac_val y]
    have hx2 : ((x.toFrac.2 : Nat) : ℚ) ≠ 0 := by exact_mod_cast (toFrac_pos x).ne'
    have hy2 : ((y.toFrac.2 : Nat) : ℚ) ≠ 0 := by exact_mod_cast (toFrac_pos y).ne'
    have hy1' : ((y.toFrac.1 : Int) : ℚ) ≠ 0 := by exact_mod_cast hy1
    have hsign : ((y.toFrac.1 : Int) : ℚ) = (Int.sign y.toFrac.1 : ℚ) * (y.toFrac.1.natAbs : ℚ) := by
      have h0 : ((Int.sign y.toFrac.1 * (y.toFrac.1.natAbs : Int) : Int) : ℚ) = (y.toFrac.1 : ℚ) := by
        rw [Int.sign_mul_natAbs]
      rw [← h0, Int.cast_mul, Int.cast_natCast]
    have hs2 : (Int.sign y.toFrac.1 : ℚ) * (Int.sign y.toFrac.1 : ℚ) = 1 := by
      rcases lt_or_gt_of_ne hy1 with h | h
      · rw [Int.sign_eq_neg_one_of_neg h]
        norm_num
      · rw [Int.sign_eq_one_of_pos h]
        norm_num
    have hab : ((y.toFrac.1.natAbs : Nat) : ℚ) ≠ 0 := by
      exact_mod_cast (Int.natAbs_pos.mpr hy1).ne'
    have hsn : (Int.sign y.toFrac.1 : ℚ) ≠ 0 := by
      intro h0
      rw [h0] at hs2
      norm_num at hs2
    rw [hsign]
    push_cast
    field_simp
    calc (x.toFrac.1 : ℚ) * y.toFrac.2 * (Int.sign y.toFrac.1 : ℚ) *
          (x.toFrac.2 * ((Int.sign y.toFrac.1 : ℚ) * y.toFrac.1.natAbs))
        = ((Int.sign y.toFrac.1 : ℚ) * (Int.sign y.toFrac.1 : ℚ)) *
          ((x.toFrac.1 : ℚ) * y.toFrac.2 * (x.toFrac.2 * y.toFrac.1.natAbs)) := by ring
      _ = (x.toFrac.1 : ℚ) * y.toFrac.2 * (x.toFrac.2 * y.toFrac.1.natAbs) := by
        rw [hs2, one_mul]
  rw [hq, e] at h
  exact h

/-! ## Rounding: exactly representable values -/

theorem cast_sign_natAbs (n : Int) : (n : ℚ) = (Int.sign n : ℚ) * (n.natAbs : ℚ) := by
  have h0 : ((Int.sign n * (n.natAbs : Int) : Int) : ℚ) = (n : ℚ) := by
    rw [Int.sign_mul_natAbs]
  rw [← h0, Int.cast_mul, Int.cast_natCast]

theorem rneDiv_mul (Q D : Nat) (hD : 0 < D) : rneDiv (Q * D) D = Q := by
  unfold rneDiv
  simp only [Nat.mul_mod_left, Nat.mul_div_cancel _ hD]
  rw [if_pos (by omega)]

/-- A value that has a significand below `2 ^ prec` at an exponent not below `emin`
is left unchanged by rounding. -/
theorem roundQ_exact (prec : Nat) (emin : Int) (n : Int) (d : Nat) (hd : 0 < d)
    (M : Nat) (E : Int) (hM : M < 2 ^ prec) (hE : emin ≤ E)
    (hx : (n.natAbs : ℚ) / d = (M : ℚ) * 2 ^ E) :
    (roundQ prec emin n d).toRat = (n : ℚ) / d := by
  have hd' : (0 : ℚ) < d := by exact_mod_cast hd
  by_cases hn : n = 0
  · subst hn
    simp [roundQ, FP.toRat]
  · have ha : 0 < n.natAbs := Int.natAbs_pos.mpr hn
    unfold roundQ
    rw [if_neg hn]
    simp only [FP.toRat]
    have hk := ilog2_le n.natAbs d ha hd
    have hle : max (ilog2 n.natAbs d - ((prec : Int) - 1)) emin ≤ E := by
      apply max_le _ hE
      have h1 : (2 : ℚ) ^ ilog2 n.natAbs d < (2 : ℚ) ^ ((prec : Int) + E) := by
        rw [zpow_add₀ (by norm_num), zpow_natCast]
        calc (2 : ℚ) ^ ilog2 n.natAbs d ≤ (M : ℚ) * 2 ^ E := by rw [← hx]; exact hk
          _ < 2 ^ prec * 2 ^ E := by
            have : (M : ℚ) < 2 ^ prec := by exact_mod_cast hM
            have h2 : (0 : ℚ) < (2 : ℚ) ^ E := by positivity
            exact mul_lt_mul_of_pos_right this h2
      have := (zpow_lt_zpow_iff_right₀ (by norm_num : (1 : ℚ) < 2)).mp h1
      omega
    generalize max (ilog2 n.natAbs d - ((prec : Int) - 1)) emin = e at hle
    have h2e : (2 : ℚ) ^ e ≠ 0 := by positivity
    have hS := scale_val n.natAbs d e hd
    have hp := scale_pos n.natAbs d e hd
    have hEe : E = ((E - e).toNat : Int) + e := by
      rw [Int.toNat_of_nonneg (by omega)]
      ring
    have hq : (n.natAbs : ℚ) / d / 2 ^ e = ((M * 2 ^ (E - e).toNat : Nat) : ℚ) := by
      rw [hx]
      nth_rewrite 1 [hEe]
      rw [zpow_add₀ (by norm_num), zpow_natCast]
      push_cast
      field_simp
      ring
    rw [hq] at hS
    have hN : (scale n.natAbs d e).1 = M * 2 ^ (E - e).toNat * (scale n.natAbs d e).2 := by
      have hp' : ((scale n.natAbs d e).2 : ℚ) ≠ 0 := by exact_mod_cast hp.ne'
      rw [div_eq_iff hp'] at hS
      exact_mod_cast hS
    rw [hN, rneDiv_mul _ _ hp]
    rw [Int.cast_mul, Int.cast_natCast, ← hq]
    rw [cast_sign_natAbs n]
    field_simp
    ring

theorem divDouble_ofInt_7_5 (p : Nat) :
    divDouble (ofInt (p : Int)) ⟨15, -1⟩ = roundQ 53 (-1074) ((p : Int) * 2) 15 := by
  have h1 : (ofInt (p : Int)).toFrac = ((p : Int), 1) := by
    simp [ofInt, FP.toFrac]
  have h2 : (FP.mk 15 (-1)).toFrac = (15, 2) := by decide
  unfold divDouble
  rw [h1, h2]
  have h3 : Int.sign 15 = 1 := by decide
  simp [h3]

/-- On a multiple of 15 below `15 * 2 ^ 24` both roundings are exact. -/
theorem flowRate_multiple (k : Nat) (hk : k < 2 ^ 24) :
    (flowRate (15 * k)).toRat = 2 * ((15 * k : Nat) : ℚ) / 15 := by
  have e2 : 2 * ((15 * k : Nat) : ℚ) / 15 = (k : ℚ) * 2 ^ (1 : Int) := by
    push_cast
    rw [zpow_one]
    ring
  have h1 : (divDouble (ofInt ((15 * k : Nat) : Int)) ⟨15, -1⟩).toRat = (k : ℚ) * 2 ^ (1 : Int) := by
    rw [divDouble_ofInt_7_5]
    have h := roundQ_exact 53 (-1074) (((15 * k : Nat) : Int) * 2) 15 (by norm_num) k 1
      (by omega) (by norm_num) (by
        rw [zpow_one]
        have : ((((15 * k : Nat) : Int) * 2).natAbs : ℚ) = 30 * (k : ℚ) := by
          have : (((15 * k : Nat) : Int) * 2).natAbs = 30 * k := by omega
          rw [this]
          push_cast
          ring
        rw [this]
        push_cast
        ring)
    rw [h]
    push_cast
    rw [zpow_one]
    ring
  unfold flowRate toFloat roundFP
  rw [e2, ← h1]
  have hf := toFrac_val (divDouble (ofInt ((15 * k : Nat) : Int)) ⟨15, -1⟩)
  rw [← hf]
  apply roundQ_exact 24 (-149) _ _ (toFrac_pos _) k 1 hk (by norm_num)
  have habs : (((divDouble (ofInt ((15 * k : Nat) : Int)) ⟨15, -1⟩).toFrac.1.natAbs : Nat) : ℚ) /
      ((divDouble (ofInt ((15 * k : Nat) : Int)) ⟨15, -1⟩).toFrac.2 : ℚ) =
      |(divDouble (ofInt ((15 * k : Nat) : Int)) ⟨15, -1⟩).toRat| := by
    rw [← hf, abs_div, Nat.abs_cast, Nat.cast_natAbs, Int.cast_abs]
  rw [habs, h1]
  exact abs_of_nonneg (by positivity)

/-- A binary floating-point value equals `2 * p / 15` only if 15 divides `p`. -/
theorem dyadic_eq_fifteenth (x : FP) (p : Nat) (h : x.toRat = 2 * (p : ℚ) / 15) : 15 ∣ p := by
  unfold FP.toRat at h
  rcases le_or_lt 0 x.e with he | he
  · have hj : x.e = ((x.e.toNat : Nat) : Int) := (Int.toNat_of_nonneg he).symm
    rw [hj, zpow_natCast] at h
    have h' : (x.m * 2 ^ x.e.toNat) * 15 = 2 * (p : Int) := by
      have : ((x.m : ℚ) * 2 ^ x.e.toNat) * 15 = 2 * (p : ℚ) := by
        rw [h]
        ring
      exact_mod_cast this
    generalize x.m * 2 ^ x.e.toNat = t at h'
    omega
  · have hj : x.e = -(((-x.e).toNat : Nat) : Int) := by
      rw [Int.toNat_of_nonneg (by omega)]
      omega
    rw [hj, zpow_neg, zpow_natCast] at h
    generalize (-x.e).toNat = j at h
    have h2 : (2 : ℚ) ^ j ≠ 0 := by positivity
    have h' : x.m * 15 = (p : Int) * 2 ^ (j + 1) := by
      have : (x.m : ℚ) * 15 = (p : ℚ) * 2 ^ (j + 1) := by
        field_simp at h
        rw [pow_succ]
        linarith
      exact_mod_cast this
    have hdvd : (15 : Int) ∣ (p : Int) * 2 ^ (j + 1) := ⟨x.m, by rw [← h']; ring⟩
    have hc : IsCoprime (15 : Int) (2 ^ (j + 1)) :=
      IsCoprime.pow_right ⟨1, -7, by norm_num⟩
    have := hc.dvd_of_dvd_mul_right hdvd
    exact_mod_cast this

/-! ## Known bit patterns

The literals of the source have their IEEE 754 significands: `3.3` is
`0x400A666666666666`, `9.81f` is `0x411CF5C3` and `3.3f` is `0x40533333`. -/

theorem doubleLit_3_3 : doubleLit 33 10 = ⟨0x1A666666666666, -51⟩ := by decide

theorem float_9_81 : toFloat (doubleLit 981 100) = ⟨0x9CF5C3, -20⟩ := by decide

theorem float_3_3 : toFloat (doubleLit 33 10) = ⟨0xD33333, -22⟩ := by decide

/-! ## The conversions of `loop()` -/

theorem ofInt_toRat (n : Int) : (ofInt n).toRat = n := by
  simp [ofInt, FP.toRat]

theorem tiny_double : (1 : ℚ) / 2 ^ 1075 ≤ 1 / 2 ^ 100 := by norm_num

theorem tiny_float : (1 : ℚ) / 2 ^ 150 ≤ 1 / 2 ^ 100 := by norm_num

/-- The stored flow rate is within a relative error of `2 ^ (-23)` of `2 * p / 15`. -/
theorem flowRate_err (p : Nat) :
    |(flowRate p).toRat - 2 * (p : ℚ) / 15| ≤ 2 * (p : ℚ) / 15 / 2 ^ 23 := by
  rcases Nat.eq_zero_or_pos p with hp | hp
  · subst hp
    have h : flowRate 0 = ⟨0, 0⟩ := by decide
    rw [h]
    simp [FP.toRat]
  · have hp' : (1 : ℚ) ≤ (p : ℚ) := by exact_mod_cast hp
    have h1 := divDouble_err (ofInt p) ⟨15, -1⟩ (by decide)
    have h2 := toFloat_err (divDouble (ofInt p) ⟨15, -1⟩)
    have e15 : (FP.mk 15 (-1)).toRat = 15 / 2 := by
      norm_num [FP.toRat]
    rw [ofInt_toRat, e15] at h1
    have ex : ((p : Int) : ℚ) / (15 / 2) = 2 * (p : ℚ) / 15 := by
      push_cast
      ring
    rw [ex] at h1
    unfold flowRate
    generalize (toFloat (divDouble (ofInt p) ⟨15, -1⟩)).toRat = f at h2 ⊢
    generalize (divDouble (ofInt p) ⟨15, -1⟩).toRat = d at h1 h2
    have hx : (0 : ℚ) ≤ 2 * (p : ℚ) / 15 := by positivity
    rw [abs_of_nonneg hx] at h1
    have t1 := tiny_double
    have t2 := tiny_float
    have hd := abs_le.mp h1
    have hdb : |d| ≤ 2 * (p : ℚ) / 15 + (2 * (p : ℚ) / 15 / 2 ^ 53 + 1 / 2 ^ 1075) := by
      rw [abs_le]
      constructor <;> linarith [hd.1, hd.2]
    have hf := abs_le.mp h2
    rw [abs_le]
    constructor <;> linarith [hd.1, hd.2, hf.1, hf.2]

/-- The constant `3.3 / 4095.0` as folded in `double` arithmetic. -/
theorem adcScale_eq :
    divDouble (doubleLit 33 10) ⟨4095, 0⟩ = ⟨7432754022373812, -63⟩ := by decide

/-- The stored pressure is within `1 / 20000` of the rational value of the formula. -/
theorem pressure_err (r : Int) (h0 : 0 ≤ r) (h1 : r ≤ 4095) :
    |(pressure r).toRat - ((r : ℚ) * (33 / 10 / 4095) - 1 / 2) * 100| ≤ 1 / 20000 := by
  have hr0 : (0 : ℚ) ≤ (r : ℚ) := by exact_mod_cast h0
  have hr1 : (r : ℚ) ≤ 4095 := by exact_mod_cast h1
  unfold pressure voltage
  rw [adcScale_eq]
  have e1 := mulDouble_err (ofInt r) ⟨7432754022373812, -63⟩
  have e2 := toFloat_err (mulDouble (ofInt r) ⟨7432754022373812, -63⟩)
  have e3 := subDouble_err (toFloat (mulDouble (ofInt r) ⟨7432754022373812, -63⟩)) ⟨1, -1⟩
  have e4 := mulDouble_err
    (subDouble (toFloat (mulDouble (ofInt r) ⟨7432754022373812, -63⟩)) ⟨1, -1⟩) ⟨100, 0⟩
  have e5 := toFloat_err (mulDouble
    (subDouble (toFloat (mulDouble (ofInt r) ⟨7432754022373812, -63⟩)) ⟨1, -1⟩) ⟨100, 0⟩)
  have c1 : (FP.mk 7432754022373812 (-63)).toRat = 7432754022373812 / 2 ^ 63 := by
    simp only [FP.toRat]
    rw [show (-63 : Int) = -((63 : Nat) : Int) by norm_num, zpow_neg, zpow_natCast]
    push_cast
    ring
  have c2 : (FP.mk 1 (-1)).toRat = 1 / 2 := by norm_num [FP.toRat]
  have c3 : (FP.mk 100 0).toRat = 100 := by norm_num [FP.toRat]
  rw [ofInt_toRat, c1] at e1
  rw [c2] at e3
  rw [c3] at e4
  generalize (toFloat (mulDouble
    (subDouble (toFloat (mulDouble (ofInt r) ⟨7432754022373812, -63⟩)) ⟨1, -1⟩)
      ⟨100, 0⟩)).toRat = a5 at e5 ⊢
  generalize (mulDouble
    (subDouble (toFloat (mulDouble (ofInt r) ⟨7432754022373812, -63⟩)) ⟨1, -1⟩)
      ⟨100, 0⟩).toRat = a4 at e4 e5
  generalize (subDouble (toFloat (mulDouble (ofInt r) ⟨7432754022373812, -63⟩))
    ⟨1, -1⟩).toRat = a3 at e3 e4
  generalize (toFloat (mulDouble (ofInt r) ⟨7432754022373812, -63⟩)).toRat = a2 at e2 e3
  generalize (mulDouble (ofInt r) ⟨7432754022373812, -63⟩).toRat = a1 at e1 e2
  generalize (r : ℚ) = ρ at hr0 hr1 e1 ⊢
  have t1 := tiny_double
  have t2 := tiny_float
  have hy : (0 : ℚ) ≤ ρ * (7432754022373812 / 2 ^ 63) := by positivity
  rw [abs_of_nonneg hy] at e1
  have b1 := abs_le.mp e1
  have m1 : |a1| ≤ 34 / 10 := by
    rw [abs_le]
    constructor <;> linarith [b1.1, b1.2]
  have b2 := abs_le.mp (e2.trans (add_le_add (div_le_div_of_nonneg_right m1 (by positivity)) t2))
  have m2 : |a2 - 1 / 2| ≤ 4 := by
    have := abs_le.mp m1
    rw [abs_le]
    constructor <;> linarith [b2.1, b2.2]
  have b3 := abs_le.mp (e3.trans (add_le_add (div_le_div_of_nonneg_right m2 (by positivity)) t1))
  have m3 : |a3 * 100| ≤ 285 := by
    have := abs_le.mp m1
    rw [abs_le]
    constructor <;> linarith [b1.1, b1.2, b2.1, b2.2, b3.1, b3.2]
  have b4 := abs_le.mp (e4.trans (add_le_add (div_le_div_of_nonneg_right m3 (by positivity)) t1))
  have m4 : |a4| ≤ 290 := by
    have := abs_le.mp m3
    rw [abs_le]
    constructor <;> linarith [b4.1, b4.2]
  have b5 := abs_le.mp (e5.trans (add_le_add (div_le_div_of_nonneg_right m4 (by positivity)) t2))
  rw [abs_le]
  constructor <;> linarith [b1.1, b1.2, b2.1, b2.2, b3.1, b3.2, b4.1, b4.2, b5.1, b5.2]

/-! ## Decimal digits -/

theorem decDigitsFuel_eq (f g n : Nat) (hf : n < f) (hg : n < g) :
    decDigitsFuel f n = decDigitsFuel g n := by
  induction f generalizing g n with
  | zero => omega
  | succ f ih =>
    cases g with
    | zero => omega
    | succ g =>
      simp only [decDigitsFuel]
      split
      · rfl
      · rw [ih g (n / 10) (by omega) (by omega)]

/-- The recursion of the decimal conversion, free of fuel. -/
theorem decDigits_eq (n : Nat) :
    decDigits n = if n < 10 then [digitChar n] else decDigits (n / 10) ++ [digitChar (n % 10)] := by
  have h : decDigits n = decDigitsFuel (n + 1) n := rfl
  rw [h, decDigitsFuel]
  split
  · rfl
  · rw [decDigitsFuel_eq n (n / 10 + 1) (n / 10) (by omega) (by omega)]
    rfl

theorem decDigits_one (n : Nat) (h : n < 10) : decDigits n = [digitChar n] := by
  rw [decDigits_eq, if_pos h]

theorem decDigits_two (n : Nat) (h1 : 10 ≤ n) (h2 : n < 100) :
    decDigits n = [digitChar (n / 10), digitChar (n % 10)] := by
  rw [decDigits_eq, if_neg (by omega), decDigits_one _ (by omega)]
  rfl

theorem decDigits_three (n : Nat) (h1 : 100 ≤ n) (h2 : n < 1000) :
    decDigits n = [digitChar (n / 100), digitChar (n / 10 % 10), digitChar (n % 10)] := by
  rw [decDigits_eq, if_neg (by omega), decDigits_two _ (by omega) (by omega)]
  simp [Nat.div_div_eq_div_mul]

theorem decDigits_four (n : Nat) (h1 : 1000 ≤ n) (h2 : n < 10000) :
    decDigits n =
      [digitChar (n / 1000), digitChar (n / 100 % 10), digitChar (n / 10 % 10),
        digitChar (n % 10)] := by
  rw [decDigits_eq, if_neg (by omega), decDigits_three _ (by omega) (by omega)]
  simp [Nat.div_div_eq_div_mul]

theorem padDec_two (n : Nat) (h : n < 100) :
    padDec 2 n = [digitChar (n / 10), digitChar (n % 10)] := by
  unfold padDec
  by_cases h1 : n < 10
  · rw [decDigits_one n h1]
    have h0 : n / 10 = 0 := by omega
    have h2 : n % 10 = n := by omega
    rw [h0, h2]
    rfl
  · rw [decDigits_two n (by omega) h]
    rfl

theorem padDec_four (n : Nat) (h : n < 10000) :
    padDec 4 n =
      [digitChar (n / 1000), digitChar (n / 100 % 10), digitChar (n / 10 % 10),
        digitChar (n % 10)] := by
  unfold padDec
  by_cases h1 : n < 10
  · rw [decDigits_one n h1]
    have e1 : n / 1000 = 0 := by omega
    have e2 : n / 100 % 10 = 0 := by omega
    have e3 : n / 10 % 10 = 0 := by omega
    have e4 : n % 10 = n := by omega
    rw [e1, e2, e3, e4]
    rfl
  · by_cases h2 : n < 100
    · rw [decDigits_two n (by omega) h2]
      have e1 : n / 1000 = 0 := by omega
      have e2 : n / 100 % 10 = 0 := by omega
      have e3 : n / 10 % 10 = n / 10 := by omega
      rw [e1, e2, e3]
      rfl
    · by_cases h3 : n < 1000
      · rw [decDigits_three n (by omega) h3]
        have e1 : n / 1000 = 0 := by omega
        have e2 : n / 100 % 10 = n / 100 := by omega
        rw [e1, e2]
        rfl
      · rw [decDigits_four n (by omega) h]
        rfl

theorem digitChar_isDigit (d : Nat) (h : d < 10) : (digitChar d).isDigit = true := by
  interval_cases d <;> decide

theorem decDigits_isDigit (n : Nat) : ∀ c ∈ decDigits n, c.isDigit = true := by
  induction n using Nat.strong_induction_on with
  | _ n ih =>
    rw [decDigits_eq]
    split
    · intro c hc
      rw [List.mem_singleton] at hc
      rw [hc]
      exact digitChar_isDigit n (by omega)
    · intro c hc
      rw [List.mem_append, List.mem_singleton] at hc
      rcases hc with hc | hc
      · exact ih (n / 10) (by omega) c hc
      · rw [hc]
        exact digitChar_isDigit _ (Nat.mod_lt _ (by norm_num))

theorem decDigits_ne_nil (n : Nat) : decDigits n ≠ [] := by
  rw [decDigits_eq]
  split <;> simp

/-! ## The pulse counter -/

/-- The counter after `n` interrupts, in `uint32_t` arithmetic. -/
theorem pulseCount_iterate (n : Nat) (s : State) (h : s.pulseCount < 2 ^ 32) :
    (onPulse^[n] s).pulseCount = (s.pulseCount + n) % 2 ^ 32 := by
  induction n generalizing s with
  | zero => simp; omega
  | succ k ih =>
    rw [Function.iterate_succ_apply, ih (onPulse s) (Nat.mod_lt _ (by norm_num))]
    simp only [onPulse]
    omega

/-- A drain after `n` interrupts since the previous drain reads `n mod 2 ^ 32`. -/
theorem drained_mod (s : State) (n : Nat) :
    (drain (onPulse^[n] (drain s).2)).1 = n % 2 ^ 32 := by
  have h := pulseCount_iterate n (drain s).2 (by simp [drain])
  simpa [drain] using h

/-- The `payload += ...` statements concatenate to one flat text. -/
theorem payload_eq (t : String) (f p v : FP) :
    payload t f p v =
      "\x7b\"timestamp\":\"" ++ t ++ "\",\"flujo\":" ++ String2 f ++ ",\"presion\":"
        ++ String2 p ++ ",\"vibracion\":" ++ String2 v ++ "\x7d" := by
  apply String.ext
  simp [payload, String.data_append]

/-! ## Traces -/

theorem run_edges (s : State) (ts : List Nat) (es : List Event) :
    run s (ts.map Event.edge ++ es) = run (onPulse^[ts.length] s) es := by
  induction ts generalizing s with
  | nil => rfl
  | cons t ts ih =>
    simp only [List.map_cons, List.cons_append, run, List.length_cons,
      Function.iterate_succ_apply]
    exact ih (onPulse s)

theorem flowLastMeasure_iterate (n : Nat) (s : State) :
    (onPulse^[n] s).flowLastMeasure = s.flowLastMeasure := by
  induction n generalizing s with
  | zero => rfl
  | succ k ih =>
    rw [Function.iterate_succ_apply, ih (onPulse s)]
    rfl

/-- Every edge served since the previous drain enters the flow rate of the next
draining iteration, whatever its time. -/
theorem flowRate_counts_every_edge (s : State) (ts : List Nat) (i : Inputs)
    (hs : s.pulseCount < 2 ^ 32)
    (hw : windowElapsed i.millisCheck s.flowLastMeasure = true) :
    (run s (ts.map Event.edge ++ [Event.iteration i])).1.flowRate =
      flowRate ((s.pulseCount + ts.length) % 2 ^ 32) := by
  have hl := flowLastMeasure_iterate ts.length s
  rw [run_edges]
  simp only [run, loop, flowStep, hl, hw, if_true, drain]
  rw [pulseCount_iterate _ _ hs]

/-! ## The claims -/

/-- Claim C1, amended: for every number `n < 2 ^ 32` of `onPulse()` invocations
between two drains, the second drain yields `pulses = n`, and a further drain with
no intervening `onPulse()` yields 0. -/
theorem drain_after_pulses (s : State) (n : Nat) (hn : n < 2 ^ 32) :
    (drain (onPulse^[n] (drain s).2)).1 = n ∧
    (drain (drain (onPulse^[n] (drain s).2)).2).1 = 0 := by
  refine ⟨?_, rfl⟩
  rw [drained_mod, Nat.mod_eq_of_lt hn]

theorem drain_after_pulses_witness :
    (drain (onPulse^[3] (drain State.init).2)).1 = 3 ∧
    (drain (drain (onPulse^[3] (drain State.init).2)).2).1 = 0 :=
  drain_after_pulses State.init 3 (by decide)

/-- Claim C1 as stated fails at `n = 2 ^ 32`: the `uint32_t` counter has wrapped to
zero, so the drain does not yield `n`. -/
theorem drain_wraps :
    ¬ ((drain (onPulse^[2 ^ 32] (drain State.init).2)).1 = 2 ^ 32) := by
  rw [drained_mod]
  decide

/-- Claim C2, amended: for every drained pulse count `p` the flow rate is `p / 7.5`
up to floating-point rounding: it is within a relative error of `2 ^ (-23)` of the
rational `2 * p / 15`, it equals that rational only if `p` is a multiple of 15, and
it does equal it for every multiple of 15 below `15 * 2 ^ 24`; 15 pulses give
exactly 2, rendered "2.00". -/
theorem flowRate_rounded (p : Nat) :
    |(flowRate p).toRat - 2 * (p : ℚ) / 15| ≤ 2 * (p : ℚ) / 15 / 2 ^ 23 ∧
    ((flowRate p).toRat = 2 * (p : ℚ) / 15 → 15 ∣ p) ∧
    (15 ∣ p → p < 15 * 2 ^ 24 → (flowRate p).toRat = 2 * (p : ℚ) / 15) ∧
    (flowRate 15).toRat = 2 ∧ String2 (flowRate 15) = "2.00" := by
  refine ⟨flowRate_err p, dyadic_eq_fifteenth _ p, ?_, ?_, by decide⟩
  · rintro ⟨k, rfl⟩ hk
    exact flowRate_multiple k (by omega)
  · have h : flowRate 15 = ⟨8388608, -22⟩ := by decide
    rw [h]
    norm_num [FP.toRat]

theorem flowRate_rounded_witness : (flowRate 30).toRat = 2 * ((30 : Nat) : ℚ) / 15 :=
  (flowRate_rounded 30).2.2.1 ⟨2, rfl⟩ (by norm_num)

/-- Claim C2 as stated fails at `p = 1`: the stored `float` is not the rational
`2 / 15`. -/
theorem flowRate_one_inexact : ¬ ((flowRate 1).toRat = 2 * ((1 : Nat) : ℚ) / 15) := by
  have h : flowRate 1 = ⟨8947849, -26⟩ := by decide
  rw [h]
  norm_num [FP.toRat]

set_option maxRecDepth 100000 in
/-- Claim C3, amended: for every raw ADC sample `r` in `[0, 4095]` the pressure is
`(r * (3.3 / 4095) - 0.5) * 100` up to floating-point rounding, within `1 / 20000` of
the rational value; `r = 0` gives exactly -50 (rendered "-50.00") and `r = 4095`
gives exactly 280 (rendered "280.00"). -/
theorem pressure_rounded (r : Int) (h0 : 0 ≤ r) (h1 : r ≤ 4095) :
    |(pressure r).toRat - ((r : ℚ) * (33 / 10 / 4095) - 1 / 2) * 100| ≤ 1 / 20000 ∧
    (pressure 0).toRat = -50 ∧ String2 (pressure 0) = "-50.00" ∧
    (pressure 4095).toRat = 280 ∧ String2 (pressure 4095) = "280.00" := by
  refine ⟨pressure_err r h0 h1, ?_, by decide, ?_, by decide⟩
  · have h : pressure 0 = ⟨-13107200, -18⟩ := by decide
    rw [h]
    norm_num [FP.toRat]
  · have h : pressure 4095 = ⟨9175040, -15⟩ := by decide
    rw [h]
    norm_num [FP.toRat]

theorem pressure_rounded_witness :
    |(pressure 1820).toRat - (((1820 : Int) : ℚ) * (33 / 10 / 4095) - 1 / 2) * 100| ≤ 1 / 20000 ∧
    (pressure 0).toRat = -50 ∧ String2 (pressure 0) = "-50.00" ∧
    (pressure 4095).toRat = 280 ∧ String2 (pressure 4095) = "280.00" :=
  pressure_rounded 1820 (by decide) (by decide)

set_option maxRecDepth 100000 in
/-- Claim C3 as stated fails at `r = 1`: the stored `float` is not the rational
value of the formula. -/
theorem pressure_one_inexact :
    ¬ ((pressure 1).toRat = (((1 : Int) : ℚ) * (33 / 10 / 4095) - 1 / 2) * 100) := by
  have h : pressure 1 = ⟨-13086075, -18⟩ := by decide
  rw [h]
  norm_num [FP.toRat]

/-- Claim C4: for every timestamp string and every flow, pressure and vibration
value the payload is exactly the text with the four keys `timestamp`, `flujo`,
`presion`, `vibracion` in that order around the timestamp and the three two-decimal
renderings, and nothing else; this is the payload every iteration of `loop()`
builds. -/
theorem payload_shape (t : String) (f p v : FP) (s : State) (i : Inputs) :
    payload t f p v =
      "\x7b\"timestamp\":\"" ++ t ++ "\",\"flujo\":" ++ String2 f ++ ",\"presion\":"
        ++ String2 p ++ ",\"vibracion\":" ++ String2 v ++ "\x7d" ∧
    (loop s i).2.payload =
      "\x7b\"timestamp\":\"" ++ timestamp i.now ++ "\",\"flujo\":"
        ++ String2 (loop s i).1.flowRate ++ ",\"presion\":"
        ++ String2 (pressure i.rawPressure) ++ ",\"vibracion\":" ++ String2 i.accelX
        ++ "\x7d" :=
  ⟨payload_eq t f p v, payload_eq _ _ _ _⟩

/-- Claim C5: the rendering of every value is fixed-point: an optional minus sign,
a nonempty run of decimal digits, one decimal point and exactly two decimal
digits, hence no exponent and no variable precision; the value 2 renders as
"2.00". -/
theorem string2_fixed_point (x : FP) :
    (∃ (sign ip : List Char) (d1 d2 : Char),
      (String2 x).data = sign ++ ip ++ ['.', d1, d2] ∧
      (sign = [] ∨ sign = ['-']) ∧ ip ≠ [] ∧ (∀ c ∈ ip, c.isDigit = true) ∧
      d1.isDigit = true ∧ d2.isDigit = true) ∧
    String2 (ofInt 2) = "2.00" :=
  ⟨⟨if x.m < 0 then ['-'] else [], decDigits (hundredths x / 100),
    digitChar (hundredths x / 10 % 10), digitChar (hundredths x % 10), rfl,
    by split <;> simp, decDigits_ne_nil _, decDigits_isDigit _,
    digitChar_isDigit _ (Nat.mod_lt _ (by norm_num)),
    digitChar_isDigit _ (Nat.mod_lt _ (by norm_num))⟩, by decide⟩

/-- Claim C6: for a date-time with year at most 9999 and month, day, hour, minute
and second at most 99, the timestamp is the 20-character text
`YYYY-MM-DDTHH:MM:SSZ`, every field zero-padded to its width, with a trailing `Z`;
2024-01-01 00:00:00 gives "2024-01-01T00:00:00Z". -/
theorem timestamp_format (now : DateTime) (hy : now.year ≤ 9999) (hmo : now.month ≤ 99)
    (hd : now.day ≤ 99) (hh : now.hour ≤ 99) (hmi : now.minute ≤ 99) (hs : now.second ≤ 99) :
    (timestamp now).length = 20 ∧
    timestamp now = String.mk
      [digitChar (now.year / 1000), digitChar (now.year / 100 % 10),
       digitChar (now.year / 10 % 10), digitChar (now.year % 10), '-',
       digitChar (now.month / 10), digitChar (now.month % 10), '-',
       digitChar (now.day / 10), digitChar (now.day % 10), 'T',
       digitChar (now.hour / 10), digitChar (now.hour % 10), ':',
       digitChar (now.minute / 10), digitChar (now.minute % 10), ':',
       digitChar (now.second / 10), digitChar (now.second % 10), 'Z'] ∧
    timestamp ⟨2024, 1, 1, 0, 0, 0⟩ = "2024-01-01T00:00:00Z" := by
  have h : timestamp now = String.mk
      [digitChar (now.year / 1000), digitChar (now.year / 100 % 10),
       digitChar (now.year / 10 % 10), digitChar (now.year % 10), '-',
       digitChar (now.month / 10), digitChar (now.month % 10), '-',
       digitChar (now.day / 10), digitChar (now.day % 10), 'T',
       digitChar (now.hour / 10), digitChar (now.hour % 10), ':',
       digitChar (now.minute / 10), digitChar (now.minute % 10), ':',
       digitChar (now.second / 10), digitChar (now.second % 10), 'Z'] := by
    unfold timestamp
    rw [padDec_four _ (by omega), padDec_two _ (by omega), padDec_two _ (by omega),
      padDec_two _ (by omega), padDec_two _ (by omega), padDec_two _ (by omega)]
    rfl
  refine ⟨?_, h, by decide⟩
  rw [h]
  rfl

theorem timestamp_format_witness :
    (timestamp ⟨2023, 12, 31, 23, 59, 58⟩).length = 20 ∧
    timestamp ⟨2023, 12, 31, 23, 59, 58⟩ = "2023-12-31T23:59:58Z" :=
  ⟨(timestamp_format ⟨2023, 12, 31, 23, 59, 58⟩ (by decide) (by decide) (by decide)
      (by decide) (by decide) (by decide)).1,
   (timestamp_format ⟨2023, 12, 31, 23, 59, 58⟩ (by decide) (by decide) (by decide)
      (by decide) (by decide) (by decide)).2.1.trans (by decide)⟩

/-- Claim C7: when the link is not connected the send step makes no call on the
HTTP client (no `begin`, `addHeader`, `POST` or `end`) and logs nothing, for every
payload; the outcome is `LinkUnavailable`. -/
theorem send_link_unavailable (payload : String) (code : Int) :
    (send false payload code).calls = [] ∧ (send false payload code).serial = [] ∧
    outcome (send false payload code) = Outcome.LinkUnavailable := by
  simp [send, outcome]

/-- Claim C8: when the link is connected exactly one POST is issued, carrying the
payload, and for every result code `c` the outcome is `Success c` exactly when
`0 < c` and `TransportFailure` exactly when `c ≤ 0`. -/
theorem send_outcome (payload : String) (c : Int) :
    (send true payload c).calls.filter
      (fun k => match k with | HttpCall.POST _ => true | _ => false) =
        [HttpCall.POST payload] ∧
    (outcome (send true payload c) = Outcome.Success c ↔ 0 < c) ∧
    (outcome (send true payload c) = Outcome.TransportFailure c ↔ c ≤ 0) ∧
    outcome (send true payload 404) = Outcome.Success 404 ∧
    outcome (send true payload 500) = Outcome.Success 500 := by
  by_cases h : 0 < c
  · simp [send, outcome, h]
  · simp [send, outcome, h]
    omega

set_option maxRecDepth 1000000 in
/-- Claim C9, amended: with 7 pulses drained in the window, raw ADC sample 1820,
X-axis acceleration 9.81 and RTC time 2024-01-01 00:00:00, the payload has
timestamp "2024-01-01T00:00:00Z", flujo 0.93, presion 96.67 and vibracion 9.81. -/
theorem scenario_payload :
    (drain (onPulse^[7] (setup 1000))).1 = 7 ∧
    (loop (onPulse^[7] (setup 1000)) scenarioInputs).2.payload =
      "\x7b\"timestamp\":\"2024-01-01T00:00:00Z\",\"flujo\":0.93,\"presion\":96.67,\"vibracion\":9.81\x7d" := by
  decide

set_option maxRecDepth 1000000 in
/-- Claim C9 as stated fails: the payload of the scenario does not carry the
pressure 96.73. -/
theorem scenario_presion_not_96_73 :
    ¬ ((loop (onPulse^[7] (setup 1000)) scenarioInputs).2.payload =
      "\x7b\"timestamp\":\"2024-01-01T00:00:00Z\",\"flujo\":0.93,\"presion\":96.73,\"vibracion\":9.81\x7d") := by
  decide

set_option maxRecDepth 1000000 in
/-- Claim C10 at the burst trace: no edge falls in the last 1000 ms before the
drain at 11000 ms and all ten edges fall in the 5000 ms since the previous drain,
yet the iteration at 11000 ms reports the flow rate of ten pulses, 1.33. -/
theorem burst_is_reported :
    edgesIn 10000 11000 burstTrace = 0 ∧ edgesIn 6000 11000 burstTrace = 10 ∧
    (run (setup 1000) burstTrace).1.flowRate = flowRate 10 ∧
    (run (setup 1000) burstTrace).2.map Report.payload =
      ["\x7b\"timestamp\":\"2024-01-01T00:00:01Z\",\"flujo\":0.00,\"presion\":-0.04,\"vibracion\":0.00\x7d",
       "\x7b\"timestamp\":\"2024-01-01T00:00:06Z\",\"flujo\":0.00,\"presion\":-0.04,\"vibracion\":0.00\x7d",
       "\x7b\"timestamp\":\"2024-01-01T00:00:11Z\",\"flujo\":1.33,\"presion\":-0.04,\"vibracion\":0.00\x7d"] := by
  decide

end Aquaguard
